import Mathlib

/-!
Shallow embedding of the RL_Regional_MCS simulation core (package `rl_mcs`):
geographic helpers (`geo.py`), the EV request generator (`ev.py`), the
per-region edge environment (`edge_env.py`), the cloud allocation environment
(`cloud_env.py`) and the orchestration loop (`trainer.py`), together with
theorems settling the specification claims about them.

Python floats are modelled as real numbers wherever trigonometry is involved
(coordinates, distances, state of charge, battery levels) and as rationals for
the exactly-representable reward and summary arithmetic.  Python `None` becomes
`Option`, a raised `IndexError` becomes `Except.error`.
-/

namespace RLMCS

/-! ## geo.py -/

/-- Source `math.radians`: degrees to radians. -/
noncomputable def radiansDeg (x : ℝ) : ℝ := x * Real.pi / 180

/-- Source `geo.haversine_km`: great-circle distance in kilometers, exactly as in the
source: `a = sin(dlat/2)^2 + cos(lat1)*cos(lat2)*sin(dlon/2)^2`,
`c = 2*asin(sqrt(a))`, result `6371*c`. -/
noncomputable def haversine_km (lon1 lat1 lon2 lat2 : ℝ) : ℝ :=
  let lon1r := radiansDeg lon1
  let lat1r := radiansDeg lat1
  let lon2r := radiansDeg lon2
  let lat2r := radiansDeg lat2
  let dlon := lon2r - lon1r
  let dlat := lat2r - lat1r
  let a := Real.sin (dlat / 2) ^ 2 +
    Real.cos lat1r * Real.cos lat2r * Real.sin (dlon / 2) ^ 2
  let c := 2 * Real.arcsin (Real.sqrt a)
  6371 * c

/-- Source `geo.RegionPolygon`: the shapely polygon is opaque to the core; all the
source ever does with it is ask containment of a point, so it is modelled as
its containment predicate. -/
structure RegionPolygon where
  region_id : String
  polygon : ℝ → ℝ → Bool

/-- Source `geo.locate_region`: first region in stored order containing the point. -/
def locate_region : List RegionPolygon → ℝ → ℝ → Option String
  | [], _, _ => none
  | r :: rs, lon, lat =>
    if r.polygon lon lat then some r.region_id else locate_region rs lon lat

open Classical in
/-- Source `geo.nearest_points_within`: indices and distances of candidate points
within `radius_km`, sorted by distance (Python's stable `list.sort`). -/
noncomputable def nearest_points_within (points : List (ℝ × ℝ)) (lon lat radius_km : ℝ) :
    List (ℕ × ℝ) :=
  let candidates := (points.enum.filterMap fun p =>
    let dist := haversine_km lon lat p.2.1 p.2.2
    if dist ≤ radius_km then some (p.1, dist) else none)
  candidates.insertionSort fun a b => a.2 ≤ b.2

/-! ## data.py -/

/-- Source `data.TrajectoryPoint`. -/
structure TrajectoryPoint where
  timestamp : String
  lon : ℝ
  lat : ℝ

/-- Source `data.Trajectory`. -/
structure Trajectory where
  vehicle_id : String
  points : List TrajectoryPoint

/-- Source `data.iterate_trips`: consecutive point pairs of a trajectory. -/
def iterate_trips (points : List TrajectoryPoint) : List (TrajectoryPoint × TrajectoryPoint) :=
  points.zip points.tail

/-! ## config.py (the fields the simulation core reads) -/

/-- Source `config.EVConfig`. -/
structure EVConfig where
  energy_kwh_per_km : ℝ
  soc_threshold : ℝ
  battery_capacity_kwh : ℝ
  timestep_minutes : ℕ

/-- Source `config.EdgeConfig` (the fields `EdgeEnv` reads). -/
structure EdgeConfig where
  region_radius_km : ℝ
  max_queue_size : ℕ

/-- Source `config.CloudConfig` (the fields `CloudEnv` and the trainer read). -/
structure CloudConfig where
  allocation_interval : ℕ
  max_transfer_per_interval : ℤ

/-- Source `config.RegionSummary`. -/
structure RegionSummary where
  region_id : String
  success_rate : ℚ
  average_wait : ℚ
  arrival_rate : ℚ
  available_mcs : ℕ
  queue_length : ℕ
deriving DecidableEq

/-- Source `config.TrainingSchedule` (the fields `Trainer.train` reads). -/
structure TrainingSchedule where
  cloud_update_every : ℕ
  edge_sync_every : ℕ
  evaluation_interval : ℕ
  save_interval : ℕ
  max_iterations : ℕ

/-! ## ev.py -/

/-- Source `ev.ChargeRequest`. -/
structure ChargeRequest where
  vehicle_id : String
  lon : ℝ
  lat : ℝ
  region_id : Option String
  timestamp : String
  soc : ℝ

/-- One trip segment of `EVSimulator.run_vehicle`: consume
`haversine * energy_kwh_per_km / battery_capacity_kwh` of SoC, clamp at 0. -/
noncomputable def socNext (cfg : EVConfig) (soc : ℝ) (pq : TrajectoryPoint × TrajectoryPoint) : ℝ :=
  let distance := haversine_km pq.1.lon pq.1.lat pq.2.lon pq.2.lat
  let energy_used := distance * cfg.energy_kwh_per_km
  max (soc - energy_used / cfg.battery_capacity_kwh) 0

open Classical in
/-- The request emitted (or not) at one segment end of `run_vehicle`:
emitted exactly when the new SoC is at or below the threshold. -/
noncomputable def segmentRequest (cfg : EVConfig) (locate : ℝ → ℝ → Option String)
    (vehicle_id : String) (soc : ℝ) (pq : TrajectoryPoint × TrajectoryPoint) :
    Option ChargeRequest :=
  if soc ≤ cfg.soc_threshold then
    some { vehicle_id := vehicle_id, lon := pq.2.lon, lat := pq.2.lat,
           region_id := locate pq.2.lon pq.2.lat, timestamp := pq.2.timestamp, soc := soc }
  else none

/-- The loop body of `EVSimulator.run_vehicle` over the trip segments: for each
segment, the SoC after the segment and the optional emitted request. -/
noncomputable def runSegments (cfg : EVConfig) (locate : ℝ → ℝ → Option String)
    (vehicle_id : String) :
    ℝ → List (TrajectoryPoint × TrajectoryPoint) → List (ℝ × Option ChargeRequest)
  | _, [] => []
  | soc, pq :: rest =>
    let soc' := socNext cfg soc pq
    (soc', segmentRequest cfg locate vehicle_id soc' pq) :: runSegments cfg locate vehicle_id soc' rest

/-- Source `EVSimulator.run_vehicle`: reads `points[0]` unconditionally (an empty
trajectory raises, modelled as `Except.error`), starts SoC at 1.0 and yields
the requests of `runSegments` in order. -/
noncomputable def run_vehicle (cfg : EVConfig) (locate : ℝ → ℝ → Option String)
    (vehicle_id : String) (points : List TrajectoryPoint) :
    Except Unit (List ChargeRequest) :=
  match points with
  | [] => Except.error ()
  | _ :: _ =>
    Except.ok ((runSegments cfg locate vehicle_id 1 (iterate_trips points)).filterMap Prod.snd)

/-- Source `EVSimulator.stream_requests`: concatenates each vehicle's requests,
skipping trajectories with no points. -/
noncomputable def stream_requests (cfg : EVConfig) (locate : ℝ → ℝ → Option String) :
    List Trajectory → Except Unit (List ChargeRequest)
  | [] => Except.ok []
  | traj :: rest =>
    if traj.points.isEmpty then stream_requests cfg locate rest
    else do
      let reqs ← run_vehicle cfg locate traj.vehicle_id traj.points
      let more ← stream_requests cfg locate rest
      pure (reqs ++ more)

/-! ## edge_env.py -/

/-- Source `edge_env.QueueItem`. -/
structure QueueItem where
  request : ChargeRequest
  wait_time : ℕ

/-- Source `edge_env.MCSState`. -/
structure MCSState where
  lon : ℝ
  lat : ℝ
  available : Bool
  battery_kwh : ℝ

/-- Source `edge_env.EdgeEnv` state. -/
structure EdgeEnv where
  region_id : String
  config : EdgeConfig
  dispatch_points : List (ℝ × ℝ)
  queue : List QueueItem
  time_step : ℕ
  arrivals_last_window : ℕ
  mcs_pool : List MCSState

/-- Source `EdgeEnv.__init__`: one MCS unit per dispatch point, available with an
80 kWh battery; empty queue, zero counters. -/
def EdgeEnv.init (region_id : String) (config : EdgeConfig)
    (dispatch_points : List (ℝ × ℝ)) : EdgeEnv :=
  { region_id := region_id, config := config, dispatch_points := dispatch_points,
    queue := [], time_step := 0, arrivals_last_window := 0,
    mcs_pool := dispatch_points.map fun p =>
      { lon := p.1, lat := p.2, available := true, battery_kwh := 80 } }

/-- Source `EdgeEnv.add_request`: drop silently at `max_queue_size`, otherwise append
a fresh entry (wait_time 0) and count the arrival. -/
def add_request (env : EdgeEnv) (request : ChargeRequest) : EdgeEnv :=
  if env.config.max_queue_size ≤ env.queue.length then env
  else { env with queue := env.queue ++ [{ request := request, wait_time := 0 }],
                  arrivals_last_window := env.arrivals_last_window + 1 }

open Classical in
/-- Source `EdgeEnv._assign_mcs`: scan the pool in stored order for the first unit
with `available = true`; subtract 5 kWh from its battery, mark it unavailable
when the battery drops below 10 kWh (otherwise re-mark it available), move it
to the target point, and report success.  Returns the success flag and the
updated pool. -/
noncomputable def assign_mcs (target_point : ℝ × ℝ) : List MCSState → Bool × List MCSState
  | [] => (false, [])
  | mcs :: rest =>
    if mcs.available then
      (true,
        { lon := target_point.1, lat := target_point.2,
          available := if mcs.battery_kwh - 5 < 10 then false else true,
          battery_kwh := mcs.battery_kwh - 5 } :: rest)
    else
      let r := assign_mcs target_point rest
      (r.1, mcs :: r.2)

/-- Python list indexing `xs[i]` for a signed index: non-negative indices from
the front, negative indices from the back, `none` when the access raises
`IndexError`. -/
def pyGet (xs : List (ℝ × ℝ)) (i : ℤ) : Option (ℝ × ℝ) :=
  if 0 ≤ i then xs[i.toNat]?
  else if 0 ≤ (xs.length : ℤ) + i then xs[((xs.length : ℤ) + i).toNat]?
  else none

/-- The body of the assignment loop of `EdgeEnv.step` for one (already aged)
queue item and its supplied index: skip when the index is `None` or at least
the number of dispatch points; otherwise look the point up (a too-negative
index raises), test the radius, and either assign an MCS (reward
`1 - 0.01*wait`, wait reset to 0), pay `-0.1` for no available MCS, or pay
`-0.2` for an out-of-radius point.  Returns the updated item, pool and reward
contribution. -/
noncomputable def processItem (config : EdgeConfig) (dispatch_points : List (ℝ × ℝ))
    (item : QueueItem) (idx : Option ℤ) (pool : List MCSState) :
    Except Unit (QueueItem × List MCSState × ℚ) :=
  match idx with
  | none => Except.ok (item, pool, 0)
  | some v =>
    if (dispatch_points.length : ℤ) ≤ v then Except.ok (item, pool, 0)
    else
      match pyGet dispatch_points v with
      | none => Except.error ()
      | some point =>
        let nearest := nearest_points_within [point] item.request.lon item.request.lat
          config.region_radius_km
        if nearest.isEmpty then Except.ok (item, pool, -(2/10))
        else
          let r := assign_mcs point pool
          if r.1 then
            Except.ok ({ item with wait_time := 0 }, r.2, 1 - (1/100) * item.wait_time)
          else
            Except.ok (item, r.2, -(1/10))

/-- The Python truthiness of `if action_indices:` in `EdgeEnv.step`: `None`
and the empty list both disable the assignment loop (and an empty index list
makes the loop body run zero times, so both are the empty list here). -/
def actionList (action_indices : Option (List (Option ℤ))) : List (Option ℤ) :=
  match action_indices with
  | none => []
  | some l => l

/-- The assignment loop of `EdgeEnv.step`: `zip(self.queue, action_indices)`
truncates to the shorter list; items beyond the zipped prefix pass through
unchanged. -/
noncomputable def processQueue (config : EdgeConfig) (dispatch_points : List (ℝ × ℝ)) :
    List QueueItem → List (Option ℤ) → List MCSState → ℚ →
    Except Unit (List QueueItem × List MCSState × ℚ)
  | items, [], pool, reward => Except.ok (items, pool, reward)
  | [], _, pool, reward => Except.ok ([], pool, reward)
  | item :: items, idx :: idxs, pool, reward =>
    match processItem config dispatch_points item idx pool with
    | Except.error e => Except.error e
    | Except.ok (item', pool', dr) =>
      match processQueue config dispatch_points items idxs pool' (reward + dr) with
      | Except.error e => Except.error e
      | Except.ok (items', pool'', reward') => Except.ok (item' :: items', pool'', reward')

/-- Source `EdgeEnv.step`: age every queue entry by 1, run the assignment loop (the
Python `if action_indices:` guard makes `None` act like the empty list), drop
every entry whose wait_time is not positive, and advance the step counter.
Returns the new state and the accumulated reward (`done` is always false and
`info` always empty in the source). -/
noncomputable def step (env : EdgeEnv) (action_indices : Option (List (Option ℤ))) :
    Except Unit (EdgeEnv × ℚ) := do
  let aged := env.queue.map fun item => { item with wait_time := item.wait_time + 1 }
  let (items, pool, reward) ←
    processQueue env.config env.dispatch_points aged (actionList action_indices) env.mcs_pool 0
  let queue' := items.filter fun item => decide (0 < item.wait_time)
  Except.ok ({ env with queue := queue', mcs_pool := pool, time_step := env.time_step + 1 },
    reward)

/-- A concrete charge request located exactly at the dispatch point `(1, 2)`. -/
def reqX : ChargeRequest :=
  { vehicle_id := "v", lon := 1, lat := 2, region_id := none, timestamp := "t", soc := 1 }

/-- A concrete one-point, one-unit edge environment with one queued request at
the dispatch point and an MCS battery level of `b` kWh. -/
def mkEdgeEnvB (b : ℝ) : EdgeEnv :=
  { region_id := "r", config := { region_radius_km := 2, max_queue_size := 50 },
    dispatch_points := [(1, 2)],
    queue := [{ request := reqX, wait_time := 0 }],
    time_step := 0, arrivals_last_window := 1,
    mcs_pool := [{ lon := 0, lat := 0, available := true, battery_kwh := b }] }

/-! ## cloud_env.py -/

/-- Source `dict.get(rid, 0)` on the allocation dictionary. -/
def dictGet (d : List (String × ℤ)) (k : String) : ℤ :=
  (d.lookup k).getD 0

/-- Source `d[k] = v` on a Python dictionary kept as an insertion-ordered
association list: replace the value when the key is present, append otherwise. -/
def dictSet (d : List (String × ℤ)) (k : String) (v : ℤ) : List (String × ℤ) :=
  match d with
  | [] => [(k, v)]
  | p :: rest => if p.1 = k then (k, v) :: rest else p :: dictSet rest k v

/-- Source `cloud_env.CloudEnv` state. -/
structure CloudEnv where
  config : CloudConfig
  region_ids : List String
  allocations : List (String × ℤ)
  time_step : ℕ

/-- Source `CloudEnv.__init__`: every registered region starts with allocation 1. -/
def CloudEnv.init (config : CloudConfig) (region_ids : List String) : CloudEnv :=
  { config := config, region_ids := region_ids,
    allocations := region_ids.map fun rid => (rid, 1), time_step := 0 }

/-- The delta loop of `CloudEnv.step`: each action entry clamps its region's
count at zero and pays `|delta| * 0.1` of transfer cost. -/
def applyDeltas : List (String × ℤ) → List (String × ℤ) → ℚ → List (String × ℤ) × ℚ
  | alloc, [], reward => (alloc, reward)
  | alloc, (rid, delta) :: rest, reward =>
    applyDeltas (dictSet alloc rid (max 0 (dictGet alloc rid + delta))) rest
      (reward - |(delta : ℚ)| * (1/10))

/-- The summary loop of `CloudEnv.step`: `success_rate * 2.0 - average_wait * 0.05`
for every supplied summary. -/
def summaryReward (summaries : List RegionSummary) : ℚ :=
  (summaries.map fun s => s.success_rate * 2 - s.average_wait * (5/100)).sum

/-- Source `CloudEnv.step`: apply the deltas, add the summary rewards, advance the
step counter.  Returns the new state and the reward (`done` is always false;
the info map only records average waits and is not modelled). -/
def CloudEnv.step (env : CloudEnv) (action : List (String × ℤ))
    (summaries : List RegionSummary) : CloudEnv × ℚ :=
  let (alloc, reward) := applyDeltas env.allocations action 0
  ({ env with allocations := alloc, time_step := env.time_step + 1 },
    reward + summaryReward summaries)

/-- Descending order on average wait, the key of
`sorted(summaries, key=lambda s: s.average_wait, reverse=True)`. -/
def byWaitDesc (a b : RegionSummary) : Prop := b.average_wait ≤ a.average_wait

instance : DecidableRel byWaitDesc := fun a b =>
  inferInstanceAs (Decidable (b.average_wait ≤ a.average_wait))

/-- Python's `sorted(..., key=..., reverse=True)` is a stable descending sort;
a stable sort is unique, so the structural insertion sort with `byWaitDesc`
computes it. -/
def sortByWaitDesc (summaries : List RegionSummary) : List RegionSummary :=
  summaries.insertionSort byWaitDesc

/-- The enumeration loop of `CloudEnv.greedy_action`: index 0 gets
`min(max_transfer_per_interval, 1)`, the last index gets `-1` (when it is not
index 0), every other index adds nothing. -/
def greedyLoop (cfg : CloudConfig) (total : ℕ) :
    List (ℕ × RegionSummary) → List (String × ℤ) → List (String × ℤ)
  | [], action => action
  | (idx, summary) :: rest, action =>
    if idx = 0 then
      greedyLoop cfg total rest (dictSet action summary.region_id (min cfg.max_transfer_per_interval 1))
    else if idx = total - 1 then
      greedyLoop cfg total rest (dictSet action summary.region_id (-1))
    else
      greedyLoop cfg total rest action

/-- Source `CloudEnv.greedy_action`: empty action on no summaries, otherwise the
enumeration loop over the stable descending sort. -/
def greedy_action (cfg : CloudConfig) (summaries : List RegionSummary) :
    List (String × ℤ) :=
  if summaries.isEmpty then []
  else
    let sorted_regions := sortByWaitDesc summaries
    greedyLoop cfg sorted_regions.length sorted_regions.enum []

/-! ## trainer.py -/

/-- The observable scheduling events of one `Trainer.train` run; environment
and policy internals are opaque to the cadence claims. -/
inductive TrainerEvent where
  | edgeRollout (round : ℕ) (region_id : String)
  | cloudRollout (round : ℕ)
  | cloudUpdate (round : ℕ)
  | edgeSync (round : ℕ)
  | evalCheckpoint (round : ℕ)
  | saveCheckpoint (round : ℕ)
deriving DecidableEq

/-- Trainer state as far as the scheduling claims see it: the rounds currently
buffered in the cloud rollout buffer and the event log. -/
structure TrainerState where
  cloud_buffer : List ℕ
  events : List TrainerEvent

/-- One round of `Trainer.train`: edge rollouts for every region; a cloud
rollout (appending to the cloud buffer) when `round % allocation_interval == 0`;
a cloud policy update (clearing the cloud buffer) when
`round % cloud_update_every == 0 and round > 0`; edge sync / evaluation / save
markers at their cadences. -/
def trainRound (cloud : CloudConfig) (schedule : TrainingSchedule)
    (region_ids : List String) (s : TrainerState) (round : ℕ) : TrainerState :=
  let s := { s with events := s.events ++ region_ids.map (TrainerEvent.edgeRollout round) }
  let s := if round % cloud.allocation_interval = 0 then
      { s with cloud_buffer := s.cloud_buffer ++ [round],
               events := s.events ++ [TrainerEvent.cloudRollout round] }
    else s
  let s := if round % schedule.cloud_update_every = 0 ∧ 0 < round then
      { s with cloud_buffer := [],
               events := s.events ++ [TrainerEvent.cloudUpdate round] }
    else s
  let s := if round % schedule.edge_sync_every = 0 ∧ 0 < round then
      { s with events := s.events ++ [TrainerEvent.edgeSync round] }
    else s
  let s := if round % schedule.evaluation_interval = 0 ∧ 0 < round then
      { s with events := s.events ++ [TrainerEvent.evalCheckpoint round] }
    else s
  if round % schedule.save_interval = 0 ∧ 0 < round then
    { s with events := s.events ++ [TrainerEvent.saveCheckpoint round] }
  else s

/-- Source `Trainer.train` up to (excluding) round `n`. -/
def trainUpTo (cloud : CloudConfig) (schedule : TrainingSchedule)
    (region_ids : List String) (n : ℕ) : TrainerState :=
  (List.range n).foldl (trainRound cloud schedule region_ids)
    { cloud_buffer := [], events := [] }

/-- Source `Trainer.train`: `max_iterations` rounds, counted from 0. -/
def train (cloud : CloudConfig) (schedule : TrainingSchedule)
    (region_ids : List String) : TrainerState :=
  trainUpTo cloud schedule region_ids schedule.max_iterations

/-- The events appended by one round of `Trainer.train`. -/
def roundEvents (cloud : CloudConfig) (schedule : TrainingSchedule)
    (region_ids : List String) (round : ℕ) : List TrainerEvent :=
  region_ids.map (TrainerEvent.edgeRollout round)
    ++ (if round % cloud.allocation_interval = 0 then [TrainerEvent.cloudRollout round] else [])
    ++ (if round % schedule.cloud_update_every = 0 ∧ 0 < round then [TrainerEvent.cloudUpdate round] else [])
    ++ (if round % schedule.edge_sync_every = 0 ∧ 0 < round then [TrainerEvent.edgeSync round] else [])
    ++ (if round % schedule.evaluation_interval = 0 ∧ 0 < round then [TrainerEvent.evalCheckpoint round] else [])
    ++ (if round % schedule.save_interval = 0 ∧ 0 < round then [TrainerEvent.saveCheckpoint round] else [])

/-- The summaries of the spec's `greedyAction` example: average waits
A:10, B:1, C:5. -/
def exampleSummaries : List RegionSummary :=
  [{ region_id := "A", success_rate := 0, average_wait := 10, arrival_rate := 0,
     available_mcs := 0, queue_length := 0 },
   { region_id := "B", success_rate := 0, average_wait := 1, arrival_rate := 0,
     available_mcs := 0, queue_length := 0 },
   { region_id := "C", success_rate := 0, average_wait := 5, arrival_rate := 0,
     available_mcs := 0, queue_length := 0 }]

instance : IsTrans RegionSummary byWaitDesc :=
  ⟨fun _ _ _ hab hbc => le_trans hbc hab⟩

instance : IsTotal RegionSummary byWaitDesc :=
  ⟨fun a b => (le_total b.average_wait a.average_wait).imp id id⟩

/-- The state produced by `step` on `mkEdgeEnvB b` with action `[0]`: the
served entry is gone, the unit moved to the dispatch point with battery
`b - 5` and availability `avail`. -/
def stepResultEnv (avail : Bool) (b : ℝ) : EdgeEnv :=
  { region_id := "r", config := { region_radius_km := 2, max_queue_size := 50 },
    dispatch_points := [(1, 2)], queue := [], time_step := 1, arrivals_last_window := 1,
    mcs_pool := [{ lon := 1, lat := 2, available := avail, battery_kwh := b }] }

/-! ## Helper lemmas -/

theorem haversine_nonneg (lon1 lat1 lon2 lat2 : ℝ) :
    0 ≤ haversine_km lon1 lat1 lon2 lat2 := by
  unfold haversine_km
  have h : 0 ≤ Real.arcsin (Real.sqrt
      (Real.sin ((radiansDeg lat2 - radiansDeg lat1) / 2) ^ 2 +
        Real.cos (radiansDeg lat1) * Real.cos (radiansDeg lat2) *
          Real.sin ((radiansDeg lon2 - radiansDeg lon1) / 2) ^ 2)) :=
    Real.arcsin_nonneg.mpr (Real.sqrt_nonneg _)
  nlinarith

theorem haversine_self (lon lat : ℝ) : haversine_km lon lat lon lat = 0 := by
  unfold haversine_km
  simp

theorem add_request_config (env : EdgeEnv) (req : ChargeRequest) :
    (add_request env req).config = env.config := by
  unfold add_request
  split <;> rfl

theorem foldl_add_request_config (reqs : List ChargeRequest) :
    ∀ env : EdgeEnv, (reqs.foldl add_request env).config = env.config := by
  induction reqs with
  | nil => intro env; rfl
  | cons r rs ih => intro env; rw [List.foldl_cons, ih, add_request_config]

theorem add_request_length_le (env : EdgeEnv) (req : ChargeRequest)
    (h : env.queue.length ≤ env.config.max_queue_size) :
    (add_request env req).queue.length ≤ env.config.max_queue_size := by
  unfold add_request
  split
  · exact h
  · simp only [List.length_append, List.length_cons, List.length_nil]
    omega

theorem foldl_add_request_length (reqs : List ChargeRequest) :
    ∀ env : EdgeEnv, env.queue.length ≤ env.config.max_queue_size →
      (reqs.foldl add_request env).queue.length ≤ env.config.max_queue_size := by
  induction reqs with
  | nil => intro env h; exact h
  | cons r rs ih =>
    intro env h
    rw [List.foldl_cons]
    have := ih (add_request env r) (by
      rw [add_request_config]; exact add_request_length_le env r h)
    rwa [add_request_config] at this

/-! ## Claim theorems -/

/-- C5: `add_request` drops silently (whole state unchanged) when the queue is
at `max_queue_size`, otherwise appends a fresh wait-0 entry and counts the
arrival; consequently no sequence of `add_request` calls from a fresh
environment ever grows the queue beyond `max_queue_size`. -/
theorem claim_C5_thm :
    (∀ (env : EdgeEnv) (req : ChargeRequest),
      env.config.max_queue_size ≤ env.queue.length → add_request env req = env)
    ∧ (∀ (env : EdgeEnv) (req : ChargeRequest),
      env.queue.length < env.config.max_queue_size →
        (add_request env req).queue = env.queue ++ [{ request := req, wait_time := 0 }]
        ∧ (add_request env req).arrivals_last_window = env.arrivals_last_window + 1)
    ∧ (∀ (rid : String) (cfg : EdgeConfig) (pts : List (ℝ × ℝ))
        (reqs : List ChargeRequest),
      (reqs.foldl add_request (EdgeEnv.init rid cfg pts)).queue.length ≤ cfg.max_queue_size) := by
  refine ⟨fun env req h => ?_, fun env req h => ?_, fun rid cfg pts reqs => ?_⟩
  · unfold add_request
    rw [if_pos h]
  · unfold add_request
    rw [if_neg (by omega)]
    exact ⟨rfl, rfl⟩
  · have := foldl_add_request_length reqs (EdgeEnv.init rid cfg pts)
      (by simp [EdgeEnv.init])
    simpa [EdgeEnv.init] using this

/-- Witness for C5 at a concrete environment that is exactly at capacity. -/
theorem claim_C5_w :
    (EdgeEnv.init "r" ⟨2, 0⟩ []).config.max_queue_size ≤
        (EdgeEnv.init "r" ⟨2, 0⟩ []).queue.length
    ∧ add_request (EdgeEnv.init "r" ⟨2, 0⟩ [])
        { vehicle_id := "v", lon := 0, lat := 0, region_id := none,
          timestamp := "t", soc := 0 } = EdgeEnv.init "r" ⟨2, 0⟩ [] :=
  ⟨Nat.le_refl 0, claim_C5_thm.1 _ _ (Nat.le_refl 0)⟩

/-- C10: `run_vehicle` fails on an empty trajectory (it reads the first point
unconditionally) and succeeds on every non-empty one; `stream_requests` skips
empty trajectories, so streaming over any collection never fails. -/
theorem claim_C10_thm :
    (∀ (cfg : EVConfig) (locate : ℝ → ℝ → Option String) (vid : String),
      run_vehicle cfg locate vid [] = Except.error ())
    ∧ (∀ (cfg : EVConfig) (locate : ℝ → ℝ → Option String) (vid : String)
        (points : List TrajectoryPoint), points ≠ [] →
      ∃ reqs, run_vehicle cfg locate vid points = Except.ok reqs)
    ∧ (∀ (cfg : EVConfig) (locate : ℝ → ℝ → Option String) (trajs : List Trajectory),
      ∃ reqs, stream_requests cfg locate trajs = Except.ok reqs) := by
  refine ⟨fun cfg locate vid => rfl, fun cfg locate vid points h => ?_, fun cfg locate trajs => ?_⟩
  · match points with
    | [] => exact absurd rfl h
    | p :: ps => exact ⟨_, rfl⟩
  · induction trajs with
    | nil => exact ⟨[], rfl⟩
    | cons t ts ih =>
      obtain ⟨reqs, hreqs⟩ := ih
      by_cases ht : t.points.isEmpty
      · exact ⟨reqs, by rw [stream_requests, if_pos ht]; exact hreqs⟩
      · obtain ⟨l, hl⟩ : ∃ l, run_vehicle cfg locate t.vehicle_id t.points = Except.ok l := by
          match hp : t.points with
          | [] => rw [hp] at ht; exact absurd rfl ht
          | p :: ps => exact ⟨_, rfl⟩
        refine ⟨l ++ reqs, ?_⟩
        rw [stream_requests, if_neg ht, hl, hreqs]
        rfl

/-- Witness for C10 at a concrete one-point trajectory. -/
theorem claim_C10_w :
    ([({ timestamp := "t", lon := 0, lat := 0 } : TrajectoryPoint)] ≠ [])
    ∧ ∃ reqs, run_vehicle ⟨1, 1, 1, 5⟩ (fun _ _ => none) "v"
        [{ timestamp := "t", lon := 0, lat := 0 }] = Except.ok reqs :=
  ⟨List.cons_ne_nil _ _, claim_C10_thm.2.1 _ _ _ _ (List.cons_ne_nil _ _)⟩

/-- C7: `locate_region` returns the identifier of the first region in stored
order containing the point, `none` when no region contains it, and is
deterministic in its inputs. -/
theorem claim_C7_thm :
    (∀ (regions : List RegionPolygon) (lon lat : ℝ) (rid : String),
      locate_region regions lon lat = some rid ↔
        ∃ pre r post, regions = pre ++ r :: post
          ∧ (∀ p ∈ pre, p.polygon lon lat = false)
          ∧ r.polygon lon lat = true ∧ rid = r.region_id)
    ∧ (∀ (regions : List RegionPolygon) (lon lat : ℝ),
      locate_region regions lon lat = none ↔
        ∀ r ∈ regions, r.polygon lon lat = false)
    ∧ (∀ (regions : List RegionPolygon) (lon lat : ℝ),
      locate_region regions lon lat = locate_region regions lon lat) := by
  refine ⟨fun regions lon lat rid => ?_, fun regions lon lat => ?_, fun _ _ _ => rfl⟩
  · induction regions with
    | nil =>
      simp only [locate_region]
      constructor
      · intro h; cases h
      · rintro ⟨pre, r, post, habs, -⟩
        exact absurd habs.symm (List.append_ne_nil_of_right_ne_nil pre (List.cons_ne_nil r post))
    | cons q qs ih =>
      rw [locate_region]
      by_cases hq : q.polygon lon lat
      · rw [if_pos hq]
        constructor
        · intro h
          exact ⟨[], q, qs, rfl, by simp, hq, (Option.some_inj.mp h).symm⟩
        · rintro ⟨pre, r, post, hsplit, hpre, hr, hrid⟩
          match pre, hsplit with
          | [], hsplit =>
            simp only [List.nil_append, List.cons.injEq] at hsplit
            rw [hrid, ← hsplit.1]
          | p :: pre', hsplit =>
            simp only [List.cons_append, List.cons.injEq] at hsplit
            have : q.polygon lon lat = false := hsplit.1 ▸ hpre p (List.mem_cons_self p pre')
            rw [this] at hq
            cases hq
      · rw [if_neg hq]
        rw [ih]
        constructor
        · rintro ⟨pre, r, post, hsplit, hpre, hr, hrid⟩
          refine ⟨q :: pre, r, post, by rw [hsplit]; rfl, ?_, hr, hrid⟩
          intro p hp
          rcases List.mem_cons.mp hp with h | h
          · subst h; exact Bool.eq_false_iff.mpr hq
          · exact hpre p h
        · rintro ⟨pre, r, post, hsplit, hpre, hr, hrid⟩
          match pre, hsplit with
          | [], hsplit =>
            simp only [List.nil_append, List.cons.injEq] at hsplit
            rw [hsplit.1] at hq
            rw [hr] at hq
            simp at hq
          | p :: pre', hsplit =>
            simp only [List.cons_append, List.cons.injEq] at hsplit
            exact ⟨pre', r, post, hsplit.2, fun x hx => hpre x (List.mem_cons_of_mem p hx), hr, hrid⟩
  · induction regions with
    | nil => simp [locate_region]
    | cons q qs ih =>
      rw [locate_region]
      by_cases hq : q.polygon lon lat
      · rw [if_pos hq]
        simp only [List.mem_cons]
        constructor
        · intro h; cases h
        · intro h
          have := h q (Or.inl rfl)
          rw [hq] at this
          cases this
      · rw [if_neg hq, ih]
        simp only [List.mem_cons]
        constructor
        · rintro h r (hr | hr)
          · subst hr; exact Bool.eq_false_iff.mpr hq
          · exact h r hr
        · intro h r hr
          exact h r (Or.inr hr)

theorem mem_dictSet {p : String × ℤ} {d : List (String × ℤ)} {k : String} {v : ℤ}
    (h : p ∈ dictSet d k v) : p = (k, v) ∨ p ∈ d := by
  induction d with
  | nil =>
    simp only [dictSet, List.mem_singleton] at h
    exact Or.inl h
  | cons q rest ih =>
    rw [dictSet] at h
    split at h
    · rcases List.mem_cons.mp h with h' | h'
      · exact Or.inl h'
      · exact Or.inr (List.mem_cons_of_mem q h')
    · rcases List.mem_cons.mp h with h' | h'
      · exact Or.inr (h' ▸ List.mem_cons_self q rest)
      · rcases ih h' with h'' | h''
        · exact Or.inl h''
        · exact Or.inr (List.mem_cons_of_mem q h'')

theorem dictGet_dictSet_self (d : List (String × ℤ)) (k : String) (v : ℤ) :
    dictGet (dictSet d k v) k = v := by
  induction d with
  | nil => simp [dictGet, dictSet, List.lookup]
  | cons q rest ih =>
    rw [dictSet]
    split
    · simp [dictGet, List.lookup]
    · rename_i hq
      have hbeq : (k == q.1) = false := beq_eq_false_iff_ne.mpr fun h => hq h.symm
      unfold dictGet at ih ⊢
      rw [List.lookup, hbeq]
      exact ih

theorem dictGet_dictSet_ne (d : List (String × ℤ)) (k k' : String) (v : ℤ)
    (h : k' ≠ k) : dictGet (dictSet d k v) k' = dictGet d k' := by
  have hbeq : (k' == k) = false := beq_eq_false_iff_ne.mpr h
  induction d with
  | nil => simp [dictGet, dictSet, List.lookup, hbeq]
  | cons q rest ih =>
    rw [dictSet]
    split
    · rename_i hq
      unfold dictGet
      rw [List.lookup, List.lookup, hq, hbeq]
    · unfold dictGet at ih ⊢
      rw [List.lookup, List.lookup]
      by_cases hk : k' = q.1
      · rw [beq_iff_eq.mpr hk]
      · rw [beq_eq_false_iff_ne.mpr hk]
        exact ih

theorem applyDeltas_nonneg :
    ∀ (action alloc : List (String × ℤ)) (reward : ℚ),
      (∀ p ∈ alloc, 0 ≤ p.2) → ∀ p ∈ (applyDeltas alloc action reward).1, 0 ≤ p.2 := by
  intro action
  induction action with
  | nil => intro alloc reward h p hp; exact h p hp
  | cons a rest ih =>
    intro alloc reward h p hp
    rw [applyDeltas] at hp
    refine ih _ _ ?_ p hp
    intro q hq
    rcases mem_dictSet hq with h' | h'
    · rw [h']; exact le_max_left 0 _
    · exact h q h'

theorem applyDeltas_get_not_mem :
    ∀ (action alloc : List (String × ℤ)) (reward : ℚ) (rid : String),
      rid ∉ action.map Prod.fst →
      dictGet (applyDeltas alloc action reward).1 rid = dictGet alloc rid := by
  intro action
  induction action with
  | nil => intro alloc reward rid _; rfl
  | cons a rest ih =>
    intro alloc reward rid h
    rw [applyDeltas]
    simp only [List.map_cons, List.mem_cons, not_or] at h
    rw [ih _ _ rid h.2, dictGet_dictSet_ne _ _ _ _ h.1]

theorem applyDeltas_get_mem :
    ∀ (action alloc : List (String × ℤ)) (reward : ℚ) (rid : String) (delta : ℤ),
      (action.map Prod.fst).Nodup → (rid, delta) ∈ action →
      dictGet (applyDeltas alloc action reward).1 rid =
        max 0 (dictGet alloc rid + delta) := by
  intro action
  induction action with
  | nil => intro alloc reward rid delta _ h; cases h
  | cons a rest ih =>
    intro alloc reward rid delta hnodup hmem
    rw [List.map_cons, List.nodup_cons] at hnodup
    rw [applyDeltas]
    rcases List.mem_cons.mp hmem with h | h
    · have ha : a = (rid, delta) := h.symm
      subst ha
      have : rid ∉ rest.map Prod.fst := hnodup.1
      rw [applyDeltas_get_not_mem rest _ _ rid this, dictGet_dictSet_self]
    · have hne : rid ≠ a.1 := by
        intro heq
        exact hnodup.1 (heq ▸ List.mem_map_of_mem Prod.fst h)
      rw [ih _ _ rid delta hnodup.2 h, dictGet_dictSet_ne _ _ _ _ hne]

theorem applyDeltas_reward :
    ∀ (action alloc : List (String × ℤ)) (reward : ℚ),
      (applyDeltas alloc action reward).2 =
        reward - (action.map fun p => |(p.2 : ℚ)| * (1/10)).sum := by
  intro action
  induction action with
  | nil => intro alloc reward; simp [applyDeltas]
  | cons a rest ih =>
    intro alloc reward
    rw [applyDeltas, ih]
    simp only [List.map_cons, List.sum_cons]
    ring

/-- C6: `CloudEnv.step` keeps every allocation count non-negative along any
sequence of step calls from a fresh environment; each action entry's new count
is `max 0 (old + delta)`, and the reward is the summary reward minus the sum of
`|delta| * 0.1` transfer costs. -/
theorem claim_C6_thm :
    (∀ (cfg : CloudConfig) (rids : List String)
        (calls : List (List (String × ℤ) × List RegionSummary)),
      ∀ p ∈ (calls.foldl (fun e c => (CloudEnv.step e c.1 c.2).1)
          (CloudEnv.init cfg rids)).allocations, 0 ≤ p.2)
    ∧ (∀ (env : CloudEnv) (action : List (String × ℤ)) (summaries : List RegionSummary)
        (rid : String) (delta : ℤ),
      (action.map Prod.fst).Nodup → (rid, delta) ∈ action →
      dictGet (CloudEnv.step env action summaries).1.allocations rid =
        max 0 (dictGet env.allocations rid + delta))
    ∧ (∀ (env : CloudEnv) (action : List (String × ℤ)) (summaries : List RegionSummary),
      (CloudEnv.step env action summaries).2 =
        summaryReward summaries - (action.map fun p => |(p.2 : ℚ)| * (1/10)).sum) := by
  refine ⟨fun cfg rids calls => ?_, fun env action summaries rid delta hn hm => ?_,
    fun env action summaries => ?_⟩
  · have main : ∀ (cs : List (List (String × ℤ) × List RegionSummary)) (env : CloudEnv),
        (∀ p ∈ env.allocations, 0 ≤ p.2) →
        ∀ p ∈ (cs.foldl (fun e c => (CloudEnv.step e c.1 c.2).1) env).allocations, 0 ≤ p.2 := by
      intro cs
      induction cs with
      | nil => intro env h; exact h
      | cons c rest ih =>
        intro env h
        rw [List.foldl_cons]
        exact ih _ (applyDeltas_nonneg c.1 env.allocations 0 h)
    refine main calls _ ?_
    intro p hp
    simp only [CloudEnv.init, List.mem_map] at hp
    obtain ⟨r, -, hr⟩ := hp
    rw [← hr]
    norm_num
  · exact applyDeltas_get_mem action env.allocations 0 rid delta hn hm
  · rw [CloudEnv.step]
    simp only
    rw [applyDeltas_reward]
    ring

/-- Witness for C6 at a concrete action whose delta is more negative than the
current count. -/
theorem claim_C6_w :
    (([("A", -5)] : List (String × ℤ)).map Prod.fst).Nodup
    ∧ (("A", -5) : String × ℤ) ∈ ([("A", -5)] : List (String × ℤ))
    ∧ dictGet (CloudEnv.step (CloudEnv.init ⟨12, 5⟩ ["A"]) [("A", -5)] []).1.allocations "A" =
        max 0 (dictGet (CloudEnv.init ⟨12, 5⟩ ["A"]).allocations "A" + (-5)) :=
  ⟨by decide, by decide,
    claim_C6_thm.2.1 (CloudEnv.init ⟨12, 5⟩ ["A"]) [("A", -5)] [] "A" (-5)
      (by decide) (by decide)⟩

theorem trainRound_events (cloud : CloudConfig) (schedule : TrainingSchedule)
    (region_ids : List String) (s : TrainerState) (round : ℕ) :
    (trainRound cloud schedule region_ids s round).events =
      s.events ++ roundEvents cloud schedule region_ids round := by
  unfold trainRound roundEvents
  split_ifs <;> simp

theorem trainRound_buffer (cloud : CloudConfig) (schedule : TrainingSchedule)
    (region_ids : List String) (s : TrainerState) (round : ℕ) :
    (trainRound cloud schedule region_ids s round).cloud_buffer =
      if round % schedule.cloud_update_every = 0 ∧ 0 < round then []
      else if round % cloud.allocation_interval = 0 then s.cloud_buffer ++ [round]
      else s.cloud_buffer := by
  unfold trainRound
  split_ifs <;> rfl

theorem trainUpTo_succ (cloud : CloudConfig) (schedule : TrainingSchedule)
    (region_ids : List String) (n : ℕ) :
    trainUpTo cloud schedule region_ids (n + 1) =
      trainRound cloud schedule region_ids (trainUpTo cloud schedule region_ids n) n := by
  unfold trainUpTo
  rw [List.range_succ, List.foldl_append, List.foldl_cons, List.foldl_nil]

theorem mem_if_singleton {p : Prop} [Decidable p] {x y : TrainerEvent} :
    x ∈ (if p then [y] else []) ↔ p ∧ x = y := by
  split
  · simp [*]
  · simp [*]

theorem cloudRollout_mem_roundEvents (cloud : CloudConfig) (schedule : TrainingSchedule)
    (region_ids : List String) (round r : ℕ) :
    TrainerEvent.cloudRollout r ∈ roundEvents cloud schedule region_ids round ↔
      r = round ∧ round % cloud.allocation_interval = 0 := by
  simp only [roundEvents, List.mem_append, mem_if_singleton, List.mem_map]
  constructor
  · rintro (((((⟨rid, -, habs⟩ | ⟨hc, heq⟩) | ⟨-, habs⟩) | ⟨-, habs⟩) | ⟨-, habs⟩) | ⟨-, habs⟩)
    · cases habs
    · cases heq; exact ⟨rfl, hc⟩
    · cases habs
    · cases habs
    · cases habs
    · cases habs
  · rintro ⟨rfl, hc⟩
    exact Or.inl (Or.inl (Or.inl (Or.inl (Or.inr ⟨hc, rfl⟩))))

theorem cloudUpdate_mem_roundEvents (cloud : CloudConfig) (schedule : TrainingSchedule)
    (region_ids : List String) (round r : ℕ) :
    TrainerEvent.cloudUpdate r ∈ roundEvents cloud schedule region_ids round ↔
      r = round ∧ round % schedule.cloud_update_every = 0 ∧ 0 < round := by
  simp only [roundEvents, List.mem_append, mem_if_singleton, List.mem_map]
  constructor
  · rintro (((((⟨rid, -, habs⟩ | ⟨-, habs⟩) | ⟨hc, heq⟩) | ⟨-, habs⟩) | ⟨-, habs⟩) | ⟨-, habs⟩)
    · cases habs
    · cases habs
    · cases heq; exact ⟨rfl, hc⟩
    · cases habs
    · cases habs
    · cases habs
  · rintro ⟨rfl, hc⟩
    exact Or.inl (Or.inl (Or.inl (Or.inr ⟨hc, rfl⟩)))

theorem cloudRollout_mem_trainUpTo (cloud : CloudConfig) (schedule : TrainingSchedule)
    (region_ids : List String) :
    ∀ n r, TrainerEvent.cloudRollout r ∈ (trainUpTo cloud schedule region_ids n).events ↔
      r < n ∧ r % cloud.allocation_interval = 0 := by
  intro n
  induction n with
  | zero =>
    intro r
    simp [trainUpTo]
  | succ n ih =>
    intro r
    rw [trainUpTo_succ, trainRound_events]
    simp only [List.mem_append, ih, cloudRollout_mem_roundEvents]
    constructor
    · rintro (⟨h1, h2⟩ | ⟨rfl, h2⟩)
      · exact ⟨Nat.lt_succ_of_lt h1, h2⟩
      · exact ⟨Nat.lt_succ_self r, h2⟩
    · rintro ⟨h1, h2⟩
      rcases Nat.lt_succ_iff_lt_or_eq.mp h1 with h | h
      · exact Or.inl ⟨h, h2⟩
      · subst h; exact Or.inr ⟨rfl, h2⟩

theorem cloudUpdate_mem_trainUpTo (cloud : CloudConfig) (schedule : TrainingSchedule)
    (region_ids : List String) :
    ∀ n r, TrainerEvent.cloudUpdate r ∈ (trainUpTo cloud schedule region_ids n).events ↔
      r < n ∧ r % schedule.cloud_update_every = 0 ∧ 0 < r := by
  intro n
  induction n with
  | zero =>
    intro r
    simp [trainUpTo]
  | succ n ih =>
    intro r
    rw [trainUpTo_succ, trainRound_events]
    simp only [List.mem_append, ih, cloudUpdate_mem_roundEvents]
    constructor
    · rintro (⟨h1, h2⟩ | ⟨rfl, h2⟩)
      · exact ⟨Nat.lt_succ_of_lt h1, h2⟩
      · exact ⟨Nat.lt_succ_self r, h2⟩
    · rintro ⟨h1, h2⟩
      rcases Nat.lt_succ_iff_lt_or_eq.mp h1 with h | h
      · exact Or.inl ⟨h, h2⟩
      · subst h; exact Or.inr ⟨rfl, h2⟩

theorem count_cloudRollout0_roundEvents (cloud : CloudConfig) (schedule : TrainingSchedule)
    (region_ids : List String) (round : ℕ) :
    (roundEvents cloud schedule region_ids round).count (TrainerEvent.cloudRollout 0) =
      if round = 0 then 1 else 0 := by
  by_cases hr : round = 0
  · subst hr
    rw [if_pos rfl]
    unfold roundEvents
    rw [if_pos (Nat.zero_mod _)]
    rw [if_neg (by omega), if_neg (by omega), if_neg (by omega), if_neg (by omega)]
    simp [List.count_append, List.count_eq_zero]
  · rw [if_neg hr]
    rw [List.count_eq_zero]
    rw [cloudRollout_mem_roundEvents]
    rintro ⟨h, -⟩
    exact hr h.symm

theorem count_cloudRollout0_trainUpTo (cloud : CloudConfig) (schedule : TrainingSchedule)
    (region_ids : List String) :
    ∀ n, (trainUpTo cloud schedule region_ids n).events.count (TrainerEvent.cloudRollout 0) =
      if n = 0 then 0 else 1 := by
  intro n
  induction n with
  | zero => simp [trainUpTo]
  | succ n ih =>
    rw [trainUpTo_succ, trainRound_events, List.count_append, ih,
      count_cloudRollout0_roundEvents]
    by_cases hn : n = 0
    · subst hn; simp
    · rw [if_neg hn, if_neg hn, if_neg (Nat.succ_ne_zero n)]

/-- C9: in a `Trainer.train` run with positive `allocation_interval` and
`cloud_update_every`, a cloud rollout happens exactly at the rounds divisible
by `allocation_interval` (in particular exactly once at round 0 whenever there
is at least one round), the cloud policy update happens exactly at the positive
rounds divisible by `cloud_update_every` (never at round 0), and the cloud
buffer is empty right after every round that performed an update. -/
theorem claim_C9_thm (cloud : CloudConfig) (schedule : TrainingSchedule)
    (region_ids : List String)
    (_hai : 0 < cloud.allocation_interval) (_hcue : 0 < schedule.cloud_update_every) :
    (∀ r, TrainerEvent.cloudRollout r ∈ (train cloud schedule region_ids).events ↔
      r < schedule.max_iterations ∧ r % cloud.allocation_interval = 0)
    ∧ (0 < schedule.max_iterations →
      (train cloud schedule region_ids).events.count (TrainerEvent.cloudRollout 0) = 1)
    ∧ (∀ r, TrainerEvent.cloudUpdate r ∈ (train cloud schedule region_ids).events ↔
      r < schedule.max_iterations ∧ r % schedule.cloud_update_every = 0 ∧ 0 < r)
    ∧ (∀ r, r < schedule.max_iterations → r % schedule.cloud_update_every = 0 → 0 < r →
      (trainUpTo cloud schedule region_ids (r + 1)).cloud_buffer = []) := by
  refine ⟨fun r => ?_, fun hpos => ?_, fun r => ?_, fun r _ hmod hr => ?_⟩
  · exact cloudRollout_mem_trainUpTo cloud schedule region_ids schedule.max_iterations r
  · rw [train, count_cloudRollout0_trainUpTo, if_neg (by omega)]
  · exact cloudUpdate_mem_trainUpTo cloud schedule region_ids schedule.max_iterations r
  · rw [trainUpTo_succ, trainRound_buffer, if_pos ⟨hmod, hr⟩]

/-- Witness for C9 with the spec's default cadences (`allocation_interval = 12`,
`cloud_update_every = 50`) and 100 rounds: an update occurs at round 50 and
none at round 0. -/
theorem claim_C9_w :
    0 < (12 : ℕ) ∧ 0 < (50 : ℕ)
    ∧ ((TrainerEvent.cloudUpdate 50 ∈
          (train ⟨12, 5⟩ ⟨50, 500, 1000, 2000, 100⟩ ["A"]).events ↔
        50 < 100 ∧ 50 % 50 = 0 ∧ 0 < 50)
      ∧ ¬ (TrainerEvent.cloudUpdate 0 ∈
          (train ⟨12, 5⟩ ⟨50, 500, 1000, 2000, 100⟩ ["A"]).events)) := by
  refine ⟨by norm_num, by norm_num, ?_, ?_⟩
  · exact (claim_C9_thm ⟨12, 5⟩ ⟨50, 500, 1000, 2000, 100⟩ ["A"] (by norm_num) (by norm_num)).2.2.1 50
  · intro h
    have := ((claim_C9_thm ⟨12, 5⟩ ⟨50, 500, 1000, 2000, 100⟩ ["A"] (by norm_num)
      (by norm_num)).2.2.1 0).mp h
    omega

theorem socNext_nonneg (cfg : EVConfig) (soc : ℝ) (pq : TrajectoryPoint × TrajectoryPoint) :
    0 ≤ socNext cfg soc pq :=
  le_max_right _ _

theorem socNext_le (cfg : EVConfig) (soc : ℝ) (pq : TrajectoryPoint × TrajectoryPoint)
    (hsoc : 0 ≤ soc) (he : 0 ≤ cfg.energy_kwh_per_km) (hc : 0 ≤ cfg.battery_capacity_kwh) :
    socNext cfg soc pq ≤ soc := by
  unfold socNext
  refine max_le ?_ hsoc
  have hd : 0 ≤ haversine_km pq.1.lon pq.1.lat pq.2.lon pq.2.lat * cfg.energy_kwh_per_km /
      cfg.battery_capacity_kwh :=
    div_nonneg (mul_nonneg (haversine_nonneg _ _ _ _) he) hc
  linarith

theorem runSegments_mono_nonneg (cfg : EVConfig) (locate : ℝ → ℝ → Option String)
    (vid : String) (he : 0 ≤ cfg.energy_kwh_per_km) (hc : 0 ≤ cfg.battery_capacity_kwh) :
    ∀ (segs : List (TrajectoryPoint × TrajectoryPoint)) (soc : ℝ), 0 ≤ soc →
      List.Chain' (fun a b => b ≤ a)
        (soc :: (runSegments cfg locate vid soc segs).map Prod.fst)
      ∧ ∀ x ∈ runSegments cfg locate vid soc segs, 0 ≤ x.1 := by
  intro segs
  induction segs with
  | nil =>
    intro soc hsoc
    exact ⟨List.chain'_singleton soc, by intro x hx; cases hx⟩
  | cons pq rest ih =>
    intro soc hsoc
    rw [runSegments]
    obtain ⟨ihchain, ihpos⟩ := ih (socNext cfg soc pq) (socNext_nonneg cfg soc pq)
    constructor
    · simp only [List.map_cons]
      exact List.Chain'.cons (socNext_le cfg soc pq hsoc he hc) ihchain
    · intro x hx
      rcases List.mem_cons.mp hx with h | h
      · rw [h]; exact socNext_nonneg cfg soc pq
      · exact ihpos x h

theorem segmentRequest_isSome (cfg : EVConfig) (locate : ℝ → ℝ → Option String)
    (vid : String) (soc : ℝ) (pq : TrajectoryPoint × TrajectoryPoint) :
    ((segmentRequest cfg locate vid soc pq).isSome ↔ soc ≤ cfg.soc_threshold)
    ∧ ∀ req, segmentRequest cfg locate vid soc pq = some req → req.soc = soc := by
  unfold segmentRequest
  split
  · rename_i h
    refine ⟨by simp [h], ?_⟩
    intro req hreq
    cases hreq
    rfl
  · rename_i h
    refine ⟨by simp [h], ?_⟩
    intro req hreq
    cases hreq

theorem runSegments_emission (cfg : EVConfig) (locate : ℝ → ℝ → Option String)
    (vid : String) :
    ∀ (segs : List (TrajectoryPoint × TrajectoryPoint)) (soc : ℝ),
      ∀ x ∈ runSegments cfg locate vid soc segs,
        (x.2.isSome ↔ x.1 ≤ cfg.soc_threshold)
        ∧ ∀ req, x.2 = some req → req.soc = x.1 := by
  intro segs
  induction segs with
  | nil => intro soc x hx; cases hx
  | cons pq rest ih =>
    intro soc x hx
    rw [runSegments] at hx
    rcases List.mem_cons.mp hx with h | h
    · subst h
      exact segmentRequest_isSome cfg locate vid (socNext cfg soc pq) pq
    · exact ih (socNext cfg soc pq) x h

/-- C4: along any trajectory processed by the EV engine with a positive
energy/positive capacity configuration, the SoC sequence starting at 1 is
non-increasing and every segment-end SoC is at least 0; a charge request with
that SoC is emitted at a segment end exactly when the SoC there is at or below
the threshold; and `run_vehicle` yields exactly those emitted requests. -/
theorem claim_C4_thm (cfg : EVConfig) (locate : ℝ → ℝ → Option String)
    (vid : String) (points : List TrajectoryPoint)
    (he : 0 < cfg.energy_kwh_per_km) (hc : 0 < cfg.battery_capacity_kwh) :
    List.Chain' (fun a b => b ≤ a)
      (1 :: (runSegments cfg locate vid 1 (iterate_trips points)).map Prod.fst)
    ∧ (∀ x ∈ runSegments cfg locate vid 1 (iterate_trips points), 0 ≤ x.1)
    ∧ (∀ x ∈ runSegments cfg locate vid 1 (iterate_trips points),
        (x.2.isSome ↔ x.1 ≤ cfg.soc_threshold)
        ∧ ∀ req, x.2 = some req → req.soc = x.1)
    ∧ (∀ p ps, points = p :: ps →
        run_vehicle cfg locate vid points = Except.ok
          ((runSegments cfg locate vid 1 (iterate_trips points)).filterMap Prod.snd)) := by
  obtain ⟨hchain, hpos⟩ := runSegments_mono_nonneg cfg locate vid he.le hc.le
    (iterate_trips points) 1 zero_le_one
  refine ⟨hchain, hpos, runSegments_emission cfg locate vid (iterate_trips points) 1,
    fun p ps hp => ?_⟩
  subst hp
  rfl

/-- Witness for C4 at a concrete two-point trajectory and unit configuration. -/
theorem claim_C4_w :
    (0 : ℝ) < 1 ∧
      List.Chain' (fun a b => b ≤ a)
        (1 :: (runSegments ⟨1, 1/2, 1, 5⟩ (fun _ _ => none) "v" 1
          (iterate_trips [⟨"t0", 0, 0⟩, ⟨"t1", 1, 1⟩])).map Prod.fst) :=
  ⟨zero_lt_one,
    (claim_C4_thm ⟨1, 1/2, 1, 5⟩ (fun _ _ => none) "v" [⟨"t0", 0, 0⟩, ⟨"t1", 1, 1⟩]
      zero_lt_one zero_lt_one).1⟩

theorem filter_orderedInsert_wait (w : ℚ) (b : RegionSummary) :
    ∀ l : List RegionSummary,
      (List.orderedInsert byWaitDesc b l).filter (fun s => decide (s.average_wait = w)) =
        if b.average_wait = w then
          b :: l.filter (fun s => decide (s.average_wait = w))
        else l.filter (fun s => decide (s.average_wait = w)) := by
  intro l
  induction l with
  | nil =>
    rw [List.orderedInsert, List.filter_cons]
    by_cases hb : b.average_wait = w
    · rw [if_pos (by simp [hb]), if_pos hb]
    · rw [if_neg (by simp [hb]), if_neg hb]
  | cons x xs ih =>
    rw [List.orderedInsert]
    split
    · rw [List.filter_cons]
      by_cases hb : b.average_wait = w
      · rw [if_pos (by simp [hb]), if_pos hb]
      · rw [if_neg (by simp [hb]), if_neg hb]
    · rename_i hbx
      have hlt : b.average_wait < x.average_wait := lt_of_not_le hbx
      rw [List.filter_cons]
      by_cases hb : b.average_wait = w
      · have hx : ¬ x.average_wait = w := by
          intro hx
          rw [hb] at hlt
          rw [hx] at hlt
          exact lt_irrefl w hlt
        rw [if_neg (by simp [hx]), ih, if_pos hb, if_pos hb,
          List.filter_cons, if_neg (by simp [hx])]
      · rw [ih, if_neg hb, if_neg hb, List.filter_cons]

theorem filter_sortByWaitDesc (w : ℚ) :
    ∀ l : List RegionSummary,
      (sortByWaitDesc l).filter (fun s => decide (s.average_wait = w)) =
        l.filter (fun s => decide (s.average_wait = w)) := by
  intro l
  induction l with
  | nil => rfl
  | cons b l ih =>
    unfold sortByWaitDesc at ih ⊢
    rw [List.insertionSort, filter_orderedInsert_wait, List.filter_cons]
    split_ifs with h1 h2 h2 <;> simp_all

theorem greedyLoop_append (cfg : CloudConfig) (total : ℕ) :
    ∀ (l1 l2 : List (ℕ × RegionSummary)) (action : List (String × ℤ)),
      greedyLoop cfg total (l1 ++ l2) action =
        greedyLoop cfg total l2 (greedyLoop cfg total l1 action) := by
  intro l1
  induction l1 with
  | nil => intro l2 action; rfl
  | cons p rest ih =>
    intro l2 action
    obtain ⟨idx, s⟩ := p
    rw [List.cons_append, greedyLoop, greedyLoop]
    split_ifs <;> exact ih _ _

theorem greedyLoop_skip (cfg : CloudConfig) (total : ℕ) :
    ∀ (l : List (ℕ × RegionSummary)) (action : List (String × ℤ)),
      (∀ p ∈ l, p.1 ≠ 0 ∧ p.1 ≠ total - 1) →
      greedyLoop cfg total l action = action := by
  intro l
  induction l with
  | nil => intro action _; rfl
  | cons p rest ih =>
    intro action h
    obtain ⟨h0, hlast⟩ := h p (List.mem_cons_self p rest)
    obtain ⟨idx, s⟩ := p
    rw [greedyLoop, if_neg h0, if_neg hlast]
    exact ih action fun q hq => h q (List.mem_cons_of_mem _ hq)

theorem greedy_action_single (cfg : CloudConfig) (summaries : List RegionSummary)
    (x : RegionSummary) (hs : sortByWaitDesc summaries = [x]) :
    greedy_action cfg summaries = [(x.region_id, min cfg.max_transfer_per_interval 1)] := by
  have hne : summaries.isEmpty = false := by
    cases summaries with
    | nil => cases hs
    | cons a l => rfl
  rw [greedy_action, hne]
  simp only [Bool.false_eq_true, if_false]
  rw [hs]
  rfl

theorem greedy_action_pair (cfg : CloudConfig) (summaries : List RegionSummary)
    (x z : RegionSummary) (ys : List RegionSummary)
    (hs : sortByWaitDesc summaries = x :: ys ++ [z]) :
    greedy_action cfg summaries =
      dictSet [(x.region_id, min cfg.max_transfer_per_interval 1)] z.region_id (-1) := by
  have hne : summaries.isEmpty = false := by
    cases summaries with
    | nil => cases hs
    | cons a l => rfl
  rw [greedy_action, hne]
  simp only [Bool.false_eq_true, if_false]
  rw [hs]
  have hlen : (x :: ys ++ [z]).length = ys.length + 2 := by
    simp
  have henum : (x :: ys ++ [z]).enum =
      (0, x) :: (List.enumFrom 1 ys ++ [(1 + ys.length, z)]) := by
    rw [show x :: ys ++ [z] = x :: (ys ++ [z]) from rfl]
    rw [List.enum_cons, List.enumFrom_append]
    rfl
  rw [hlen, henum]
  rw [greedyLoop, if_pos rfl]
  rw [greedyLoop_append]
  rw [greedyLoop_skip cfg (ys.length + 2) (List.enumFrom 1 ys) _ ?hmid]
  case hmid =>
    intro p hp
    obtain ⟨i, q⟩ := p
    obtain ⟨h1, h2, -⟩ := List.mem_enumFrom hp
    refine ⟨?_, ?_⟩
    · show i ≠ 0
      omega
    · show i ≠ ys.length + 2 - 1
      omega
  rw [greedyLoop, if_neg (by omega), if_pos (by omega)]
  rfl

theorem sortByWaitDesc_ne_nil (summaries : List RegionSummary) (hne : summaries ≠ []) :
    sortByWaitDesc summaries ≠ [] := by
  intro h
  exact hne (((List.perm_insertionSort byWaitDesc summaries).symm.trans (h ▸ List.Perm.refl _)).eq_nil)

theorem lookup_dictSet_pair_self1 (a b : String) (u v : ℤ) (h : a ≠ b) :
    (dictSet [(a, u)] b v).lookup a = some u := by
  rw [dictSet]
  simp only [if_neg (by simpa using fun hh => h hh)]
  rw [dictSet]
  rw [List.lookup, beq_iff_eq.mpr rfl]

theorem lookup_dictSet_pair_self2 (a b : String) (u v : ℤ) (h : a ≠ b) :
    (dictSet [(a, u)] b v).lookup b = some v := by
  rw [dictSet]
  simp only [if_neg (by simpa using fun hh => h hh)]
  rw [dictSet]
  rw [List.lookup, beq_eq_false_iff_ne.mpr fun hh => h hh.symm]
  rw [List.lookup, beq_iff_eq.mpr rfl]

theorem lookup_dictSet_pair_none (a b rid : String) (u v : ℤ)
    (ha : rid ≠ a) (hb : rid ≠ b) :
    (dictSet [(a, u)] b v).lookup rid = none := by
  rw [dictSet]
  split
  · rename_i hab
    rw [List.lookup, beq_eq_false_iff_ne.mpr hb, List.lookup]
  · rw [List.lookup, beq_eq_false_iff_ne.mpr ha, dictSet, List.lookup,
      beq_eq_false_iff_ne.mpr hb, List.lookup]

/-- C8: `greedy_action` sorts the summaries stably by descending average wait
(the sorted list is ordered, is a permutation of the input, and preserves the
input order of equal-wait summaries), gives the highest-wait region
`min(max_transfer_per_interval, 1)`, gives the lowest-wait region `-1` when the
sorted list has at least two entries, gives no entry to any other region,
returns the empty action on no summaries, and on the {A:10, B:1, C:5} example
with `max_transfer_per_interval ≥ 1` returns exactly {A: +1, B: -1}. -/
theorem claim_C8_thm (cfg : CloudConfig) (summaries : List RegionSummary)
    (hne : summaries ≠ [])
    (hids : (summaries.map RegionSummary.region_id).Nodup) :
    ((sortByWaitDesc summaries).Sorted byWaitDesc
      ∧ (sortByWaitDesc summaries).Perm summaries
      ∧ ∀ w : ℚ, (sortByWaitDesc summaries).filter (fun s => decide (s.average_wait = w)) =
          summaries.filter (fun s => decide (s.average_wait = w)))
    ∧ (∀ x, (sortByWaitDesc summaries).head? = some x →
        (greedy_action cfg summaries).lookup x.region_id =
          some (min cfg.max_transfer_per_interval 1))
    ∧ (∀ z, (sortByWaitDesc summaries).getLast? = some z →
        2 ≤ (sortByWaitDesc summaries).length →
        (greedy_action cfg summaries).lookup z.region_id = some (-1))
    ∧ (∀ rid : String,
        (∀ x, (sortByWaitDesc summaries).head? = some x → rid ≠ x.region_id) →
        (∀ z, (sortByWaitDesc summaries).getLast? = some z → rid ≠ z.region_id) →
        (greedy_action cfg summaries).lookup rid = none)
    ∧ greedy_action cfg [] = []
    ∧ (1 ≤ cfg.max_transfer_per_interval →
        greedy_action cfg exampleSummaries = [("A", 1), ("B", -1)]) := by
  have hsne := sortByWaitDesc_ne_nil summaries hne
  obtain ⟨x, xs, hsort⟩ : ∃ x xs, sortByWaitDesc summaries = x :: xs := by
    cases h : sortByWaitDesc summaries with
    | nil => exact absurd h hsne
    | cons a l => exact ⟨a, l, rfl⟩
  refine ⟨⟨List.sorted_insertionSort byWaitDesc summaries,
    List.perm_insertionSort byWaitDesc summaries,
    fun w => filter_sortByWaitDesc w summaries⟩, ?_, ?_, ?_, rfl, ?_⟩
  case _ =>
    rcases List.eq_nil_or_concat xs with hxs | ⟨ys, z, hxs⟩
    · subst hxs
      intro x' hx'
      rw [hsort] at hx'
      cases hx'
      rw [greedy_action_single cfg summaries x hsort]
      rw [List.lookup, beq_iff_eq.mpr rfl]
    · rw [List.concat_eq_append] at hxs
      subst hxs
      have hxz : x.region_id ≠ z.region_id := by
        have hnodup2 : ((sortByWaitDesc summaries).map RegionSummary.region_id).Nodup := by
          unfold sortByWaitDesc
          exact ((List.perm_insertionSort byWaitDesc summaries).map
            RegionSummary.region_id).nodup_iff.mpr hids
        rw [hsort, List.map_cons, List.nodup_cons] at hnodup2
        intro h
        exact hnodup2.1 (h ▸ List.mem_map_of_mem RegionSummary.region_id
          (by simp : z ∈ ys ++ [z]))
      intro x' hx'
      rw [hsort] at hx'
      cases hx'
      rw [greedy_action_pair cfg summaries x z ys hsort]
      exact lookup_dictSet_pair_self1 _ _ _ _ hxz
  case _ =>
    rcases List.eq_nil_or_concat xs with hxs | ⟨ys, z, hxs⟩
    · subst hxs
      intro z' hz' hlen
      rw [hsort] at hlen
      simp at hlen
    · rw [List.concat_eq_append] at hxs
      subst hxs
      have hxz : x.region_id ≠ z.region_id := by
        have hnodup2 : ((sortByWaitDesc summaries).map RegionSummary.region_id).Nodup := by
          unfold sortByWaitDesc
          exact ((List.perm_insertionSort byWaitDesc summaries).map
            RegionSummary.region_id).nodup_iff.mpr hids
        rw [hsort, List.map_cons, List.nodup_cons] at hnodup2
        intro h
        exact hnodup2.1 (h ▸ List.mem_map_of_mem RegionSummary.region_id
          (by simp : z ∈ ys ++ [z]))
      intro z' hz' hlen
      rw [hsort, show x :: (ys ++ [z]) = (x :: ys) ++ [z] from rfl,
        List.getLast?_concat] at hz'
      cases hz'
      rw [greedy_action_pair cfg summaries x z ys hsort]
      exact lookup_dictSet_pair_self2 _ _ _ _ hxz
  case _ =>
    rcases List.eq_nil_or_concat xs with hxs | ⟨ys, z, hxs⟩
    · subst hxs
      intro rid hhead _
      have hx := hhead x (by rw [hsort]; rfl)
      rw [greedy_action_single cfg summaries x hsort]
      rw [List.lookup, beq_eq_false_iff_ne.mpr hx, List.lookup]
    · rw [List.concat_eq_append] at hxs
      subst hxs
      intro rid hhead hlast
      have hx := hhead x (by rw [hsort]; rfl)
      have hz := hlast z (by
        rw [hsort, show x :: (ys ++ [z]) = (x :: ys) ++ [z] from rfl, List.getLast?_concat])
      rw [greedy_action_pair cfg summaries x z ys hsort]
      exact lookup_dictSet_pair_none _ _ _ _ _ hx hz
  case _ =>
    intro hmt
    have hmin : min cfg.max_transfer_per_interval 1 = 1 := min_eq_right hmt
    have hsx : sortByWaitDesc exampleSummaries =
        ({ region_id := "A", success_rate := 0, average_wait := 10, arrival_rate := 0,
           available_mcs := 0, queue_length := 0 } : RegionSummary) ::
          [({ region_id := "C", success_rate := 0, average_wait := 5, arrival_rate := 0,
              available_mcs := 0, queue_length := 0 } : RegionSummary)] ++
          [({ region_id := "B", success_rate := 0, average_wait := 1, arrival_rate := 0,
              available_mcs := 0, queue_length := 0 } : RegionSummary)] := by
      decide
    rw [greedy_action_pair cfg exampleSummaries _ _ _ hsx, hmin]
    rw [dictSet, if_neg (by decide), dictSet]

/-- Witness for C8 on the spec's example summaries and the default cloud
configuration. -/
theorem claim_C8_w :
    exampleSummaries ≠ []
    ∧ (exampleSummaries.map RegionSummary.region_id).Nodup
    ∧ (1 : ℤ) ≤ (5 : ℤ)
    ∧ greedy_action ⟨12, 5⟩ exampleSummaries = [("A", 1), ("B", -1)] :=
  ⟨by decide, by decide, by decide,
    (claim_C8_thm ⟨12, 5⟩ exampleSummaries (by decide) (by decide)).2.2.2.2.2 (by decide)⟩

theorem nearest_eval :
    nearest_points_within [((1 : ℝ), (2 : ℝ))] 1 2 2 = [(0, 0)] := by
  unfold nearest_points_within
  simp only [List.enum, List.enumFrom, List.filterMap, haversine_self]
  rw [if_pos (by norm_num : (0 : ℝ) ≤ 2)]
  rfl

open Classical in
theorem step_eval_single (b : ℝ) :
    step (mkEdgeEnvB b) (some [some 0]) =
      Except.ok ({ region_id := "r",
                   config := { region_radius_km := 2, max_queue_size := 50 },
                   dispatch_points := [(1, 2)],
                   queue := [], time_step := 1, arrivals_last_window := 1,
                   mcs_pool := [{ lon := 1, lat := 2,
                                  available := if b - 5 < 10 then false else true,
                                  battery_kwh := b - 5 }] }, 99/100) := by
  simp only [step, mkEdgeEnvB, reqX, actionList, List.map_cons, List.map_nil]
  rw [processQueue]
  simp only [processItem, pyGet, List.length_cons, List.length_nil]
  norm_num
  rw [nearest_eval]
  simp only [assign_mcs]
  norm_num [processQueue, List.filter]
  rfl

theorem bind_ok_eq {ε α β : Type} (a : α) (f : α → Except ε β) :
    (Except.ok a >>= f) = f a := rfl

theorem filter_aged (q : List QueueItem) :
    ((q.map fun it => { it with wait_time := it.wait_time + 1 }).filter
      fun item => decide (0 < item.wait_time)) =
      q.map fun it => { it with wait_time := it.wait_time + 1 } := by
  rw [List.filter_eq_self]
  intro a ha
  obtain ⟨it, -, hit⟩ := List.mem_map.mp ha
  rw [← hit]
  simp

theorem processItem_skip (config : EdgeConfig) (pts : List (ℝ × ℝ)) (item : QueueItem)
    (pool : List MCSState) (idx : Option ℤ)
    (h : idx = none ∨ ∃ v, idx = some v ∧ (pts.length : ℤ) ≤ v) :
    processItem config pts item idx pool = Except.ok (item, pool, 0) := by
  rcases h with rfl | ⟨v, rfl, hv⟩
  · rfl
  · simp only [processItem]
    rw [if_pos hv]

theorem processItem_err (config : EdgeConfig) (pts : List (ℝ × ℝ)) (item : QueueItem)
    (pool : List MCSState) (v : ℤ) (h : v + (pts.length : ℤ) < 0) :
    processItem config pts item (some v) pool = Except.error () := by
  simp only [processItem, pyGet]
  rw [if_neg (by omega), if_neg (by omega), if_neg (by omega)]

theorem processQueue_skip (config : EdgeConfig) (pts : List (ℝ × ℝ)) :
    ∀ (idxs : List (Option ℤ)) (items : List QueueItem) (pool : List MCSState) (r : ℚ),
      (∀ i ∈ idxs, i = none ∨ ∃ v, i = some v ∧ (pts.length : ℤ) ≤ v) →
      processQueue config pts items idxs pool r = Except.ok (items, pool, r) := by
  intro idxs
  induction idxs with
  | nil =>
    intro items pool r _
    cases items <;> rfl
  | cons i is ih =>
    intro items pool r h
    cases items with
    | nil => rfl
    | cons item items' =>
      have hi := h i (List.mem_cons_self i is)
      have hrest := fun j hj => h j (List.mem_cons_of_mem i hj)
      simp only [processQueue, processItem_skip config pts item pool i hi,
        add_zero]
      rw [ih items' pool r hrest]

/-- C3 (amended): a queue entry paired with a missing index or an index at
least the dispatch-point count is skipped (no reward change, no state change,
no error) — and a whole step whose supplied indices are all of this kind just
ages the queue and returns reward 0; but a *negative* index below minus the
list length makes the dispatch-point lookup raise, so the step fails instead
of skipping. -/
theorem claim_C3_thm :
    (∀ (config : EdgeConfig) (pts : List (ℝ × ℝ)) (item : QueueItem)
        (pool : List MCSState) (idx : Option ℤ),
      (idx = none ∨ ∃ v, idx = some v ∧ (pts.length : ℤ) ≤ v) →
      processItem config pts item idx pool = Except.ok (item, pool, 0))
    ∧ (∀ (config : EdgeConfig) (pts : List (ℝ × ℝ)) (item : QueueItem)
        (pool : List MCSState) (v : ℤ),
      v + (pts.length : ℤ) < 0 →
      processItem config pts item (some v) pool = Except.error ())
    ∧ (∀ (env : EdgeEnv) (idxs : List (Option ℤ)),
      (∀ i ∈ idxs, i = none ∨ ∃ v, i = some v ∧ (env.dispatch_points.length : ℤ) ≤ v) →
      step env (some idxs) = Except.ok
        ({ env with
            queue := env.queue.map fun it => { it with wait_time := it.wait_time + 1 },
            time_step := env.time_step + 1 }, 0)) := by
  refine ⟨processItem_skip, processItem_err, fun env idxs h => ?_⟩
  simp only [step, actionList]
  rw [processQueue_skip env.config env.dispatch_points idxs _ env.mcs_pool 0 h]
  rw [bind_ok_eq]
  rw [filter_aged]

/-- Witness for C3 at a concrete environment and the too-large index 5. -/
theorem claim_C3_w :
    (∀ i ∈ ([some 5] : List (Option ℤ)),
      i = none ∨ ∃ v, i = some v ∧ (((mkEdgeEnvB 80).dispatch_points.length : ℤ) ≤ v))
    ∧ step (mkEdgeEnvB 80) (some [some 5]) = Except.ok
        ({ (mkEdgeEnvB 80) with
            queue := (mkEdgeEnvB 80).queue.map fun it =>
              { it with wait_time := it.wait_time + 1 },
            time_step := (mkEdgeEnvB 80).time_step + 1 }, 0) := by
  have hyp : ∀ i ∈ ([some 5] : List (Option ℤ)),
      i = none ∨ ∃ v, i = some v ∧ (((mkEdgeEnvB 80).dispatch_points.length : ℤ) ≤ v) := by
    intro i hi
    rw [List.mem_singleton] at hi
    subst hi
    exact Or.inr ⟨5, rfl, by norm_num [mkEdgeEnvB]⟩
  exact ⟨hyp, claim_C3_thm.2.2 (mkEdgeEnvB 80) [some 5] hyp⟩

/-- Counterexample to C3 as stated: the index -2 does not designate a valid
candidate position of the one-point list, yet the step raises an index error
instead of skipping the entry. -/
theorem claim_C3_cex :
    step (mkEdgeEnvB 80) (some [some (-2)]) = Except.error () := by
  simp only [step, actionList, mkEdgeEnvB, List.map_cons, List.map_nil, processQueue]
  rw [processItem_err _ _ _ _ (-2) (by norm_num)]
  rfl

/-- C2 (amended): after any successful `step` call, every surviving queue
entry has strictly positive wait time — an entry whose wait time was reset to
0 by a successful assignment is removed by that same step call's filter. -/
theorem claim_C2_thm (env : EdgeEnv) (action : Option (List (Option ℤ)))
    (env' : EdgeEnv) (r : ℚ) (h : step env action = Except.ok (env', r)) :
    ∀ item ∈ env'.queue, 0 < item.wait_time := by
  simp only [step] at h
  cases hpq : processQueue env.config env.dispatch_points
      (env.queue.map fun item => { item with wait_time := item.wait_time + 1 })
      (actionList action) env.mcs_pool 0 with
  | error e =>
    rw [hpq] at h
    cases h
  | ok t =>
    obtain ⟨items, pool, reward⟩ := t
    rw [hpq, bind_ok_eq] at h
    have h' : ({ env with
        queue := items.filter fun item => decide (0 < item.wait_time),
        mcs_pool := pool, time_step := env.time_step + 1 }, reward) = (env', r) := by
      injection h
    have hq : env'.queue = items.filter fun item => decide (0 < item.wait_time) := by
      rw [← (Prod.mk.injEq _ _ _ _).mp h' |>.1]
    intro item hitem
    rw [hq] at hitem
    simp only [List.mem_filter, decide_eq_true_eq] at hitem
    exact hitem.2

/-- Witness for C2 at a concrete successful step. -/
theorem claim_C2_w :
    step (mkEdgeEnvB 80) (some [some 0]) = Except.ok (stepResultEnv true 75, 99/100)
    ∧ ∀ item ∈ (stepResultEnv true 75).queue, 0 < item.wait_time := by
  have hstep : step (mkEdgeEnvB 80) (some [some 0]) =
      Except.ok (stepResultEnv true 75, 99/100) := by
    rw [step_eval_single 80]
    norm_num [stepResultEnv]
  exact ⟨hstep, claim_C2_thm (mkEdgeEnvB 80) (some [some 0]) (stepResultEnv true 75)
    (99/100) hstep⟩

/-- Counterexample to C2 as stated: the single queued entry is served (reward
`1 - 0.01 × 1 = 0.99`) and its wait time reset to 0 in this step, and the
queue after this same step call is already empty — the entry was removed by
this step's filter, not the next one's. -/
theorem claim_C2_cex :
    step (mkEdgeEnvB 80) (some [some 0]) = Except.ok (stepResultEnv true 75, 99/100)
    ∧ (stepResultEnv true 75).queue = [] := by
  constructor
  · rw [step_eval_single 80]
    norm_num [stepResultEnv]
  · rfl

open Classical in
/-- C1 (amended): a successful MCS assignment moves the first available unit
to the target point and subtracts 5 kWh from its battery, but the unit is left
available only when the decremented battery is still at least 10 kWh; when it
falls below 10 kWh the assignment itself flips `available` from true to false
(a battery-depletion cutoff, not a cooldown). -/
theorem claim_C1_thm (target : ℝ × ℝ) (before : List MCSState) (u : MCSState)
    (after : List MCSState) (hb : ∀ m ∈ before, m.available = false)
    (hu : u.available = true) :
    assign_mcs target (before ++ u :: after) =
      (true, before ++
        { lon := target.1, lat := target.2,
          available := if u.battery_kwh - 5 < 10 then false else true,
          battery_kwh := u.battery_kwh - 5 } :: after)
    ∧ ((if u.battery_kwh - 5 < 10 then (false : Bool) else true) = true ↔
        10 ≤ u.battery_kwh - 5) := by
  constructor
  · induction before with
    | nil =>
      rw [List.nil_append, List.nil_append]
      rw [assign_mcs]
      rw [if_pos hu]
    | cons m rest ih =>
      have hm := hb m (List.mem_cons_self m rest)
      have ih' := ih fun q hq => hb q (List.mem_cons_of_mem m hq)
      rw [List.cons_append, List.cons_append]
      rw [assign_mcs]
      rw [if_neg (by rw [hm]; exact Bool.false_ne_true)]
      rw [ih']
  · split
    · rename_i hlt
      have hnot : ¬ (10 ≤ u.battery_kwh - 5) := not_le_of_lt hlt
      simp [hnot]
    · rename_i hge
      have : 10 ≤ u.battery_kwh - 5 := le_of_not_lt hge
      simp [this]

open Classical in
/-- Witness for C1 at a pool whose first unit is unavailable and whose second
is available with a full battery. -/
theorem claim_C1_w :
    (∀ m ∈ ([{ lon := 0, lat := 0, available := false, battery_kwh := 80 }] : List MCSState),
      m.available = false)
    ∧ ({ lon := 0, lat := 0, available := true, battery_kwh := 80 } : MCSState).available = true
    ∧ assign_mcs (1, 2)
        ([{ lon := 0, lat := 0, available := false, battery_kwh := 80 }] ++
          ({ lon := 0, lat := 0, available := true, battery_kwh := 80 } : MCSState) :: []) =
      (true, [{ lon := 0, lat := 0, available := false, battery_kwh := 80 }] ++
        { lon := (1 : ℝ), lat := (2 : ℝ),
          available := if (80 : ℝ) - 5 < 10 then false else true,
          battery_kwh := (80 : ℝ) - 5 } :: []) := by
  refine ⟨?_, rfl, ?_⟩
  · intro m hm
    rw [List.mem_singleton] at hm
    rw [hm]
  · exact (claim_C1_thm (1, 2) [{ lon := 0, lat := 0, available := false, battery_kwh := 80 }]
      { lon := 0, lat := 0, available := true, battery_kwh := 80 } []
      (by intro m hm; rw [List.mem_singleton] at hm; rw [hm]) rfl).1

/-- Counterexample to C1 as stated: from a reachable battery level of 10 kWh
(14 assignments after the initial 80 kWh), one more successful assignment
(reward `0.99` certifies success) leaves the pool's only unit with
`available = false` — the step changed the flag from true to false. -/
theorem claim_C1_cex :
    step (mkEdgeEnvB 10) (some [some 0]) = Except.ok (stepResultEnv false 5, 99/100)
    ∧ (mkEdgeEnvB 10).mcs_pool.map MCSState.available = [true]
    ∧ (stepResultEnv false 5).mcs_pool.map MCSState.available = [false] := by
  refine ⟨?_, rfl, rfl⟩
  rw [step_eval_single 10]
  norm_num [stepResultEnv]

end RLMCS
